import Mathlib

/-
Verification of the MSR-based power sampler (src/src/main.rs).

Modelling conventions:
* `f64` arithmetic is modelled over `ℚ`.  Every numeric fact proved here
  involves only sums, differences, products and quotients of dyadic
  rationals of small magnitude, which `f64` represents and computes
  exactly, so the rational model is faithful for these claims.
* Rust panics (`unwrap` on `None`/`Err`, arithmetic overflow in debug
  builds, integer division by zero) are modelled by the distinguished
  outcome `Res.panicked`; errors returned through `io::Result` are
  modelled by `Res.err`.
* The filesystem and the MSR character devices are modelled by an
  explicit environment `Env`: sysfs text files as `List Char` contents,
  and `readBytes path offset` as the bytes available from `path` at
  `offset` (a list shorter than 8 models a short read; the devices are
  assumed openable, as the spec's external-interface section does).
* `u64` / `u32` values are `Nat`s; the places where Rust's fixed width
  matters (the `u32` parse bound, the `+ 1` overflow in `get_cores`)
  carry explicit `2 ^ 32` checks.
* `std::time::Duration` is non-negative; it is modelled by its total
  nanosecond count, with `as_secs` the truncating whole-second count
  exactly as in Rust.
-/

namespace Ryzen

/-- Outcome of a Rust computation: normal return, an `Err` propagated with
`?`, or a panic (from `unwrap`/overflow). -/
inductive Err where
  | unexpectedEof : Err
  deriving DecidableEq

inductive Res (α : Type) where
  | ok : α → Res α
  | err : Err → Res α
  | panicked : Res α
  deriving DecidableEq

namespace Res

def map (f : α → β) : Res α → Res β
  | .ok a => .ok (f a)
  | .err e => .err e
  | .panicked => .panicked

def isOk : Res α → Bool
  | .ok _ => true
  | _ => false

end Res

/-! ### Character-list models of the string operations used by the source

Rust's `trim_end`, `split_once("-")`, `split(",")` and `parse::<u32>` are
modelled over `List Char` (the separators used by the source are single
characters). -/

/-- `str::trim_end`: drop trailing whitespace. -/
def trimEndList (l : List Char) : List Char :=
  (l.reverse.dropWhile Char.isWhitespace).reverse

/-- `str::split_once(sep)` for a one-character separator: split at the first
occurrence, `none` when the separator does not occur. -/
def splitOnceChar (c : Char) : List Char → Option (List Char × List Char)
  | [] => none
  | x :: xs =>
    if x = c then some ([], xs)
    else (splitOnceChar c xs).map (fun p => (x :: p.1, p.2))

/-- `str::split(sep)` for a one-character separator.  Like Rust's `split`,
the empty string yields one empty item. -/
def splitChar (c : Char) : List Char → List (List Char)
  | [] => [[]]
  | x :: xs =>
    if x = c then [] :: splitChar c xs
    else
      match splitChar c xs with
      | [] => [[x]]
      | y :: ys => (x :: y) :: ys

/-- One decimal digit's value. -/
def digitVal (c : Char) : Nat := c.toNat - 48

def parseNatCore : List Char → Nat → Option Nat
  | [], acc => some acc
  | c :: cs, acc =>
    if c.isDigit then parseNatCore cs (acc * 10 + digitVal c) else none

/-- `str::parse::<u32>`: optional leading `+`, at least one ASCII digit,
value within `u32` range. -/
def parseU32 (l : List Char) : Option Nat :=
  let l := match l with
    | '+' :: rest => rest
    | _ => l
  match l with
  | [] => none
  | _ =>
    match parseNatCore l 0 with
    | some n => if n < 2 ^ 32 then some n else none
    | none => none

/-! ### The environment: sysfs files and MSR devices -/

/-- The operating environment at one instant: contents of the three sysfs
inputs and the bytes each register device yields at a given offset. -/
structure Env where
  smtControl : List Char
  online : List Char
  siblings : Nat → List Char
  readBytes : String → Nat → List Nat

/-! ### `Msr` (register access) -/

structure Msr where
  path : String
  deriving DecidableEq

/-- `u64::from_ne_bytes` on x86-64: little-endian assembly of the bytes. -/
def from_ne_bytes (bs : List Nat) : Nat :=
  bs.foldr (fun b acc => b % 256 + 256 * acc) 0

namespace Msr

def POWER_UNIT_OFFSET : Nat := 0xC0010299
def CORE_ENERGY_OFFSET : Nat := 0xC001029A
def PACKAGE_ENERGY_OFFSET : Nat := 0xC001029B
def ENERGY_UNIT_MASK : Nat := 0x1F00

def new (core : Nat) : Msr :=
  ⟨"/dev/cpu/" ++ toString core ++ "/msr"⟩

/-- `Msr::read_register`: seek to `offset`, `read_exact` 8 bytes, assemble
in native order.  Fewer than 8 available bytes is the `UnexpectedEof`
`io::Error` that `read_exact` returns, propagated with `?`. -/
def read_register (env : Env) (m : Msr) (offset : Nat) : Res Nat :=
  let data := env.readBytes m.path offset
  if data.length < 8 then .err .unexpectedEof
  else .ok (from_ne_bytes (data.take 8))

/-- `Msr::energy_unit`: mask bits 8–12 of the power-unit register, shift
right by 8, scale is `0.5 ^ unit` (exact in `f64`, modelled in `ℚ`). -/
def energy_unit (env : Env) (m : Msr) : Res ℚ :=
  (m.read_register env POWER_UNIT_OFFSET).map (fun units =>
    let unit := (units &&& ENERGY_UNIT_MASK) >>> 8
    (1 / 2 : ℚ) ^ unit)

/-- `Msr::core_energy`: raw counter times the freshly decoded unit scale. -/
def core_energy (env : Env) (m : Msr) : Res ℚ :=
  match m.read_register env CORE_ENERGY_OFFSET with
  | .ok raw => (m.energy_unit env).map (fun u => (raw : ℚ) * u)
  | .err e => .err e
  | .panicked => .panicked

/-- `Msr::package_energy`: raw counter times the freshly decoded unit
scale. -/
def package_energy (env : Env) (m : Msr) : Res ℚ :=
  match m.read_register env PACKAGE_ENERGY_OFFSET with
  | .ok raw => (m.energy_unit env).map (fun u => (raw : ℚ) * u)
  | .err e => .err e
  | .panicked => .panicked

end Msr

/-! ### `Cpu` (topology discovery and sampling) -/

/-- `std::time::Duration` (non-negative), as its total nanosecond count. -/
structure Duration where
  nanos : Nat
  deriving DecidableEq

/-- `Duration::as_secs`: whole seconds, truncating. -/
def Duration.as_secs (d : Duration) : Nat := d.nanos / 1000000000

structure Cpu where
  smt_enabled : Bool
  core_count : Nat
  physical_core_count : Nat
  core_msr : List (Nat × Msr)
  deriving DecidableEq

namespace Cpu

/-- `Cpu::get_cores`: read `/sys/devices/system/cpu/online`, trim, take the
part after the first `-` (`split_once("-").unwrap()` — a missing separator
panics), `parse::<u32>().unwrap()` it (panicking on failure), and add 1
(`u32` overflow panics in a debug build). -/
def get_cores (env : Env) : Res Nat :=
  match splitOnceChar '-' (trimEndList env.online) with
  | none => .panicked
  | some (_, maxStr) =>
    match parseU32 maxStr with
    | none => .panicked
    | some n => if n + 1 < 2 ^ 32 then .ok (n + 1) else .panicked

/-- One iteration of the SMT loop: read
`/sys/devices/system/cpu/cpu{id}/topology/core_cpus_list`, trim, split on
`,`, `parse::<u32>().unwrap()` each item, take `min().unwrap()`. -/
def sibMin (env : Env) (id : Nat) : Res Nat :=
  match (splitChar ',' (trimEndList (env.siblings id))).mapM parseU32 with
  | none => .panicked
  | some [] => .panicked
  | some (v :: vs) => .ok (vs.foldl Nat.min v)

/-- The SMT loop's set of canonical (minimum-sibling) core ids, inserted in
ascending logical-core order. -/
def collectMins (env : Env) : List Nat → Res (Finset ℕ)
  | [] => .ok ∅
  | id :: rest =>
    match sibMin env id with
    | .ok m => (collectMins env rest).map (fun s => insert m s)
    | _ => .panicked

/-- `Cpu::get_physical_cores`: with SMT the number of distinct canonical
sibling-minimum ids over logical cores `0..core_count`; without SMT just
`core_count` (no sibling file is read). -/
def get_physical_cores (env : Env) (smt_enabled : Bool) (core_count : Nat) :
    Res Nat :=
  if smt_enabled then
    (collectMins env (List.range core_count)).map Finset.card
  else .ok core_count

/-- `Cpu::get_msr_info`: a `BTreeMap` holding `Msr::new(core)` for each
`core` in `0..physical_core_count`, modelled as the key-sorted association
list. -/
def get_msr_info (physical_core_count : Nat) : List (Nat × Msr) :=
  (List.range physical_core_count).map (fun core => (core, Msr.new core))

/-- `Cpu::new`: read the SMT control file, compare its trimmed contents to
`"on"`, then discover counts and build the per-core MSR map. -/
def new (env : Env) : Res Cpu :=
  let smt_enabled := trimEndList env.smtControl == "on".data
  match get_cores env with
  | .err e => .err e
  | .panicked => .panicked
  | .ok core_count =>
    match get_physical_cores env smt_enabled core_count with
    | .err e => .err e
    | .panicked => .panicked
    | .ok physical_core_count =>
      .ok ⟨smt_enabled, core_count, physical_core_count,
           get_msr_info physical_core_count⟩

/-- `Cpu::package_energy`: first map entry's `package_energy().unwrap()`;
`next().unwrap()` on an empty map panics, as does an `Err` from the MSR. -/
def package_energy (env : Env) (c : Cpu) : Res ℚ :=
  match c.core_msr with
  | [] => .panicked
  | (_, msr) :: _ =>
    match msr.package_energy env with
    | .ok e => .ok e
    | _ => .panicked

/-- The collection loop of `Cpu::core_energy`: every entry's
`core_energy().unwrap()` (an `Err` panics), in map order. -/
def coreEnergyList (env : Env) : List (Nat × Msr) → Res (List (Nat × ℚ))
  | [] => .ok []
  | (core, msr) :: rest =>
    match msr.core_energy env with
    | .ok e => (coreEnergyList env rest).map (fun l => (core, e) :: l)
    | _ => .panicked

/-- `Cpu::core_energy`. -/
def core_energy (env : Env) (c : Cpu) : Res (List (Nat × ℚ)) :=
  coreEnergyList env c.core_msr

/-- `Cpu::power`: sample package and per-core energy, sleep, sample again,
divide the differences by `duration.as_secs() as f64`, pairing the per-core
before/after lists positionally (`iter().zip(...)`).  The two samplings see
the environments `envB` (before the sleep) and `envA` (after).
`package_energy`/`core_energy` only return `.ok` or `.panicked`. -/
def power (c : Cpu) (envB envA : Env) (duration : Duration) :
    Res (ℚ × List (Nat × ℚ)) :=
  match c.package_energy envB with
  | .ok package_energy_before =>
    match c.core_energy envB with
    | .ok core_energy_before =>
      match c.package_energy envA with
      | .ok package_energy_after =>
        match c.core_energy envA with
        | .ok core_energy_after =>
          let d : ℚ := (duration.as_secs : ℚ)
          .ok ((package_energy_after - package_energy_before) / d,
               (core_energy_before.zip core_energy_after).map
                 (fun p => (p.1.1, (p.2.2 - p.1.2) / d)))
        | _ => .panicked
      | _ => .panicked
    | _ => .panicked
  | _ => .panicked

end Cpu

/-- `main`'s cores-total figure: the per-core watt sum times
`(core_count / physical_core_count) as f64` — a truncating `u32` division
performed before the float cast.  (Rust's `u32` division panics when
`physical_core_count = 0`; every `Cpu` produced by `Cpu::new` has a
positive count, so that branch is unreachable from `main`.) -/
def cores_total (core_count physical_core_count : Nat)
    (cores_power : List (Nat × ℚ)) : ℚ :=
  (cores_power.foldl (fun acc p => acc + p.2) 0) *
    ((core_count / physical_core_count : Nat) : ℚ)

/-! ### Spec-side definitions (for refinement comparisons only)

These two follow the spec's words, not the source, and exist solely to be
compared against the source-derived definitions above. -/

/-- Modelled from the spec: the sampling duration "expressed as a real
number of seconds" (`duration_seconds`). -/
def durationSecondsSpec (d : Duration) : ℚ := (d.nanos : ℚ) / 1000000000

/-- Modelled from the spec: cores total = sum of core watts times the
real-valued ratio `logical_core_count / physical_core_count`. -/
def cores_total_spec (core_count physical_core_count : Nat)
    (cores_power : List (Nat × ℚ)) : ℚ :=
  (cores_power.foldl (fun acc p => acc + p.2) 0) *
    ((core_count : ℚ) / (physical_core_count : ℚ))

/-! ### Concrete environments used by the witnesses and counterexamples -/

/-- Little-endian 8-byte encoding of a value, as an MSR device yields it. -/
def le8 (v : Nat) : List Nat :=
  [v % 256, v / 2 ^ 8 % 256, v / 2 ^ 16 % 256, v / 2 ^ 24 % 256,
   v / 2 ^ 32 % 256, v / 2 ^ 40 % 256, v / 2 ^ 48 % 256, v / 2 ^ 56 % 256]

/-- Registers for a one-core machine: energy-unit exponent 0 (scale 1),
core and package counters both at `e` joules. -/
def regsAt (e : Nat) : String → Nat → List Nat := fun _ off =>
  if off = Msr.POWER_UNIT_OFFSET then le8 0 else le8 e

/-- Before-sample environment: 100 J on the core and package counters. -/
def envB1 : Env := ⟨"on".data, "0-0".data, fun _ => "0".data, regsAt 100⟩

/-- After-sample environment: 150 J on the core and package counters. -/
def envA1 : Env := ⟨"on".data, "0-0".data, fun _ => "0".data, regsAt 150⟩

/-- An environment whose register devices yield no bytes (short read). -/
def envShort : Env := ⟨"on".data, "0-0".data, fun _ => "0".data, fun _ _ => []⟩

/-- The one-physical-core `Cpu` that `Cpu::new` yields on a machine with
online range `0-0`. -/
def cpu1 : Cpu := ⟨false, 1, 1, Cpu.get_msr_info 1⟩

/-- The spec's SMT example: 8 logical cores with sibling lists
`0,4 / 1,5 / 2,6 / 3,7` repeating. -/
def env8 : Env :=
  ⟨"on\n".data, "0-7\n".data,
   fun id => (List.getD ["0,4", "1,5", "2,6", "3,7", "0,4", "1,5", "2,6", "3,7"] id "").data,
   regsAt 0⟩

/-- A reachable SMT topology whose canonical sibling-minimum ids are
`{0, 2}`: adjacent logical cores are siblings. -/
def env4 : Env :=
  ⟨"on\n".data, "0-3\n".data,
   fun id => (List.getD ["0,1", "0,1", "2,3", "2,3"] id "").data,
   regsAt 0⟩

/-- The `Cpu` value `Cpu::new` produces in `env4`. -/
def cpu4 : Cpu := ⟨true, 4, 2, Cpu.get_msr_info 2⟩

/-- An SMT-disabled environment with 5 logical cores. -/
def envOff : Env := ⟨"off\n".data, "0-4\n".data, fun _ => "0".data, regsAt 0⟩

/-- The `Cpu` value `Cpu::new` produces in `envOff`. -/
def cpuOff : Cpu := ⟨false, 5, 5, Cpu.get_msr_info 5⟩

/-- An online descriptor with no `-` separator. -/
def envNoDash : Env := ⟨"on".data, "03".data, fun _ => "".data, regsAt 0⟩

/-- Registers with energy-unit exponent 14 (`0x0E00` in the power-unit
register) and raw energy counters at `2 ^ 15`. -/
def envU14 : Env :=
  ⟨"on".data, "0-0".data, fun _ => "0".data,
   fun _ off => if off = Msr.POWER_UNIT_OFFSET then le8 0x0E00 else le8 32768⟩

/-! ### Helper lemmas -/

lemma testBit_1F00 (i : Nat) : Nat.testBit 0x1F00 (8 + i) = decide (i < 5) := by
  by_cases h : i < 5
  · interval_cases i <;> decide
  · have h13 : (0x1F00 : Nat) < 2 ^ (8 + i) := by
      calc (0x1F00 : Nat) < 2 ^ 13 := by norm_num
        _ ≤ 2 ^ (8 + i) := Nat.pow_le_pow_right (by norm_num) (by omega)
    simp [Nat.testBit_lt_two_pow h13, h]

/-- Masking with `0x1F00` and shifting right by 8 extracts bits 8–12. -/
lemma and_1F00_shiftRight_eight (x : Nat) :
    (x &&& 0x1F00) >>> 8 = x / 2 ^ 8 % 2 ^ 5 := by
  apply Nat.eq_of_testBit_eq
  intro i
  rw [Nat.testBit_shiftRight, Nat.testBit_and, testBit_1F00,
      Nat.testBit_mod_two_pow, ← Nat.shiftRight_eq_div_pow,
      Nat.testBit_shiftRight, Bool.and_comm]

lemma collectMins_ok_image (env : Env) (m : Nat → Nat) :
    ∀ (ids : List Nat), (∀ id ∈ ids, Cpu.sibMin env id = .ok (m id)) →
      Cpu.collectMins env ids = .ok (ids.toFinset.image m)
  | [], _ => by simp [Cpu.collectMins]
  | id :: rest, h => by
    have hid := h id (List.mem_cons_self id rest)
    have hrest := collectMins_ok_image env m rest
      (fun i hi => h i (List.mem_cons_of_mem id hi))
    simp [Cpu.collectMins, hid, hrest, Res.map, Finset.image_insert]

lemma collectMins_card_le (env : Env) :
    ∀ (ids : List Nat) (s : Finset ℕ), Cpu.collectMins env ids = .ok s →
      s.card ≤ ids.length
  | [], s, h => by
    simp only [Cpu.collectMins] at h
    cases h
    simp
  | id :: rest, s, h => by
    simp only [Cpu.collectMins] at h
    cases hm : Cpu.sibMin env id with
    | ok v =>
      rw [hm] at h
      cases hr : Cpu.collectMins env rest with
      | ok s' =>
        rw [hr] at h
        simp only [Res.map] at h
        cases h
        calc (insert v s').card ≤ s'.card + 1 := Finset.card_insert_le v s'
          _ ≤ rest.length + 1 := by
            have := collectMins_card_le env rest s' hr
            omega
          _ = (id :: rest).length := by simp
      | err e => rw [hr] at h; simp [Res.map] at h
      | panicked => rw [hr] at h; simp [Res.map] at h
    | err e => rw [hm] at h; simp at h
    | panicked => rw [hm] at h; simp at h

lemma collectMins_cons_nonempty (env : Env) (id : Nat) (rest : List Nat)
    (s : Finset ℕ) (h : Cpu.collectMins env (id :: rest) = .ok s) :
    s.Nonempty := by
  simp only [Cpu.collectMins] at h
  cases hm : Cpu.sibMin env id with
  | ok v =>
    rw [hm] at h
    cases hr : Cpu.collectMins env rest with
    | ok s' =>
      rw [hr] at h
      simp only [Res.map] at h
      cases h
      exact Finset.insert_nonempty v s'
    | err e => rw [hr] at h; simp [Res.map] at h
    | panicked => rw [hr] at h; simp [Res.map] at h
  | err e => rw [hm] at h; simp at h
  | panicked => rw [hm] at h; simp at h

lemma get_cores_pos (env : Env) (n : Nat)
    (h : Cpu.get_cores env = .ok n) : 0 < n := by
  simp only [Cpu.get_cores] at h
  split at h
  · simp at h
  · split at h
    · simp at h
    · split at h
      · cases h; omega
      · simp at h

lemma get_physical_cores_pos (env : Env) (smt : Bool) (n r : Nat)
    (hn : 0 < n) (h : Cpu.get_physical_cores env smt n = .ok r) : 0 < r := by
  cases smt with
  | false =>
    simp only [Cpu.get_physical_cores, if_neg] at h
    cases h
    exact hn
  | true =>
    simp only [Cpu.get_physical_cores, if_pos] at h
    obtain ⟨m, rest, hrange⟩ : ∃ m rest, List.range n = m :: rest := by
      cases hr : List.range n with
      | nil => exact absurd (List.range_eq_nil.mp hr) hn.ne'
      | cons a l => exact ⟨a, l, rfl⟩
    rw [hrange] at h
    cases hc : Cpu.collectMins env (m :: rest) with
    | ok s =>
      rw [hc] at h
      simp only [Res.map] at h
      cases h
      exact Finset.card_pos.mpr (collectMins_cons_nonempty env m rest s hc)
    | err e => rw [hc] at h; simp [Res.map] at h
    | panicked => rw [hc] at h; simp [Res.map] at h

lemma coreEnergyList_keys (env : Env) :
    ∀ (l : List (Nat × Msr)) (r : List (Nat × ℚ)),
      Cpu.coreEnergyList env l = .ok r → r.map Prod.fst = l.map Prod.fst
  | [], r, h => by
    simp only [Cpu.coreEnergyList] at h
    cases h
    simp
  | (core, msr) :: rest, r, h => by
    simp only [Cpu.coreEnergyList] at h
    cases he : msr.core_energy env with
    | ok e =>
      rw [he] at h
      cases hr : Cpu.coreEnergyList env rest with
      | ok r' =>
        rw [hr] at h
        simp only [Res.map] at h
        cases h
        simpa using coreEnergyList_keys env rest r' hr
      | err e' => rw [hr] at h; simp [Res.map] at h
      | panicked => rw [hr] at h; simp [Res.map] at h
    | err e' => rw [he] at h; simp at h
    | panicked => rw [he] at h; simp at h

lemma coreEnergyList_all_ok (env : Env) :
    ∀ (l : List (Nat × Msr)) (r : List (Nat × ℚ)),
      Cpu.coreEnergyList env l = .ok r →
      ∀ p ∈ l, (Msr.core_energy env p.2).isOk = true
  | [], _, _ => by simp
  | (core, msr) :: rest, r, h => by
    simp only [Cpu.coreEnergyList] at h
    cases he : msr.core_energy env with
    | ok e =>
      rw [he] at h
      cases hr : Cpu.coreEnergyList env rest with
      | ok r' =>
        intro p hp
        rcases List.mem_cons.mp hp with hp | hp
        · subst hp; simp [he, Res.isOk]
        · exact coreEnergyList_all_ok env rest r' hr p hp
      | err e' => rw [hr] at h; simp [Res.map] at h
      | panicked => rw [hr] at h; simp [Res.map] at h
    | err e' => rw [he] at h; simp at h
    | panicked => rw [he] at h; simp at h

lemma zip_fst_aligned {α β : Type} :
    ∀ (l1 : List (Nat × α)) (l2 : List (Nat × β)),
      l1.map Prod.fst = l2.map Prod.fst →
      ∀ q ∈ l1.zip l2, q.1.1 = q.2.1
  | [], _, _ => by simp
  | _ :: _, [], h => by simp at h
  | a :: l1, b :: l2, h => by
    simp only [List.map_cons, List.cons.injEq] at h
    intro q hq
    rcases List.mem_cons.mp hq with hq | hq
    · subst hq; exact h.1
    · exact zip_fst_aligned l1 l2 h.2 q hq

/-! ### Claim theorems -/

/-- C3: with SMT enabled, for every logical core id in `[0, core_count)`
the discovery reads that core's comma-separated sibling list and takes its
minimum id as the canonical physical-core index (`sibMin`), and the
physical-core count is the number of distinct canonical indices. -/
theorem smt_counts_distinct_sibling_minima (env : Env) (n : Nat)
    (m : Nat → Nat) (h : ∀ id < n, Cpu.sibMin env id = .ok (m id)) :
    Cpu.get_physical_cores env true n =
      .ok (((Finset.range n).image m).card) := by
  have hc := collectMins_ok_image env m (List.range n)
    (fun id hid => h id (List.mem_range.mp hid))
  have hr : (List.range n).toFinset = Finset.range n := by
    ext x
    simp
  simp [Cpu.get_physical_cores, hc, Res.map, hr]

/-- C3 witness: the spec's example — sibling lists `0,4 / 1,5 / 2,6 / 3,7`
repeated over 8 logical cores yield 4 physical cores. -/
theorem smt_counts_distinct_sibling_minima_witness :
    Cpu.get_physical_cores env8 true 8 = .ok 4 := by
  have h := smt_counts_distinct_sibling_minima env8 8 (fun id => id % 4)
    (by decide)
  exact h.trans (by decide)

/-- C9: a successful discovery satisfies
`physical_core_count ≤ logical_core_count`; with SMT disabled it equals the
logical count, and the result then does not depend on the environment at
all (no sibling-list file is consulted). -/
theorem physical_le_logical (env : Env) (smt : Bool) (n r : Nat)
    (h : Cpu.get_physical_cores env smt n = .ok r) :
    r ≤ n ∧ (smt = false →
      r = n ∧ ∀ env' : Env, Cpu.get_physical_cores env' false n = .ok n) := by
  cases smt with
  | false =>
    have h' : Res.ok n = Res.ok r := by
      simpa [Cpu.get_physical_cores] using h
    cases h'
    exact ⟨le_rfl, fun _ => ⟨rfl, fun env' => by simp [Cpu.get_physical_cores]⟩⟩
  | true =>
    refine ⟨?_, by simp⟩
    simp only [Cpu.get_physical_cores, if_true] at h
    cases hc : Cpu.collectMins env (List.range n) with
    | ok s =>
      rw [hc] at h
      simp only [Res.map] at h
      cases h
      simpa using collectMins_card_le env (List.range n) s hc
    | err e => rw [hc] at h; simp [Res.map] at h
    | panicked => rw [hc] at h; simp [Res.map] at h

/-- C9 witness: with SMT off, 5 logical cores give 5 physical cores in any
environment — also in `env8`, whose sibling lists would collapse cores. -/
theorem physical_le_logical_witness :
    Cpu.get_physical_cores envOff false 5 = .ok 5 ∧
    (5 : Nat) ≤ 5 ∧ Cpu.get_physical_cores env8 false 5 = .ok 5 := by
  have h := physical_le_logical envOff false 5 5 (by decide)
  exact ⟨by decide, h.1, (h.2 rfl).2 env8⟩

/-- C10: every `Cpu` that `Cpu::new` returns has a positive physical-core
count and a non-empty MSR map of exactly that size, so the first-entry
selection in `package_energy` cannot hit the empty-map branch. -/
theorem cpu_new_msr_map_nonempty (env : Env) (cpu : Cpu)
    (h : Cpu.new env = .ok cpu) :
    0 < cpu.physical_core_count ∧ cpu.core_msr ≠ [] ∧
      cpu.core_msr.length = cpu.physical_core_count := by
  simp only [Cpu.new] at h
  split at h
  · simp at h
  · simp at h
  · rename_i core_count hg
    split at h
    · simp at h
    · simp at h
    · rename_i pc hp
      cases h
      have h1 : 0 < pc :=
        get_physical_cores_pos _ _ _ _ (get_cores_pos env core_count hg) hp
      refine ⟨h1, ?_, by simp [Cpu.get_msr_info]⟩
      simp only [Cpu.get_msr_info, ne_eq, List.map_eq_nil_iff,
        List.range_eq_nil]
      omega

/-- C10 witness: the SMT-off environment with online range `0-4` yields a
`Cpu` with 5 physical cores and a non-empty MSR map. -/
theorem cpu_new_msr_map_nonempty_witness :
    Cpu.new envOff = .ok cpuOff ∧ 0 < cpuOff.physical_core_count ∧
      cpuOff.core_msr ≠ [] := by
  have h := cpu_new_msr_map_nonempty envOff cpuOff (by decide)
  exact ⟨by decide, h.1, h.2.1⟩

/-- C4 (amended): the MSR map of every constructed `Cpu` is keyed by the
consecutive indices `0, …, physical_core_count - 1` (not by the canonical
minimum-sibling ids, with which they coincide only when that canonical set
is exactly `{0, …, physical_core_count - 1}`), and the register file path
of the entry with key `i` is `/dev/cpu/i/msr`. -/
theorem msr_map_keys_consecutive (env : Env) (cpu : Cpu)
    (h : Cpu.new env = .ok cpu) :
    cpu.core_msr.map Prod.fst = List.range cpu.physical_core_count ∧
    cpu.core_msr.map (fun p => p.2.path) =
      (List.range cpu.physical_core_count).map
        (fun i => "/dev/cpu/" ++ toString i ++ "/msr") := by
  simp only [Cpu.new] at h
  split at h
  · simp at h
  · simp at h
  · split at h
    · simp at h
    · simp at h
    · cases h
      constructor
      · have hid : (Prod.fst ∘ fun core : Nat => (core, Msr.new core)) = id := rfl
        simp [Cpu.get_msr_info, hid]
      · simp [Cpu.get_msr_info, Msr.new]

/-- C4 counterexample: in the reachable topology `env4` (adjacent logical
cores are siblings) the canonical minimum-sibling indices are `{0, 2}`,
but the constructed map is keyed `[0, 1]` with paths `/dev/cpu/0/msr` and
`/dev/cpu/1/msr` — not the canonical indices. -/
theorem msr_keys_not_canonical_counterexample :
    Cpu.new env4 = .ok cpu4 ∧
    Cpu.collectMins env4 (List.range 4) = .ok {0, 2} ∧
    cpu4.core_msr.map Prod.fst = [0, 1] ∧
    ([0, 1] : List Nat) ≠ [0, 2] ∧
    cpu4.core_msr.map (fun p => p.2.path) =
      ["/dev/cpu/0/msr", "/dev/cpu/1/msr"] :=
  ⟨by decide, by decide, by decide, by decide, by decide⟩

/-- C4 witness for the amended statement, at the `env4` topology. -/
theorem msr_map_keys_consecutive_witness :
    cpu4.core_msr.map Prod.fst = List.range 2 := by
  exact (msr_map_keys_consecutive env4 cpu4 (by decide)).1

/-- C5: the energy scale is `2^-u` joules per raw count, where `u` is the
value of bits 8–12 of the power-unit register (mask `0x1F00`, shifted
right by 8), and `core_energy` / `package_energy` each return their raw
counter multiplied by this freshly decoded scale. -/
theorem energy_unit_decodes_bits_8_to_12 (env : Env) (m : Msr)
    (units craw praw : Nat)
    (hu : m.read_register env Msr.POWER_UNIT_OFFSET = .ok units)
    (hc : m.read_register env Msr.CORE_ENERGY_OFFSET = .ok craw)
    (hp : m.read_register env Msr.PACKAGE_ENERGY_OFFSET = .ok praw) :
    (units &&& Msr.ENERGY_UNIT_MASK) >>> 8 = units / 2 ^ 8 % 2 ^ 5 ∧
    m.energy_unit env = .ok (((2 : ℚ) ^ (units / 2 ^ 8 % 2 ^ 5))⁻¹) ∧
    m.core_energy env =
      .ok ((craw : ℚ) * ((2 : ℚ) ^ (units / 2 ^ 8 % 2 ^ 5))⁻¹) ∧
    m.package_energy env =
      .ok ((praw : ℚ) * ((2 : ℚ) ^ (units / 2 ^ 8 % 2 ^ 5))⁻¹) := by
  have hmask : (units &&& Msr.ENERGY_UNIT_MASK) >>> 8 = units / 2 ^ 8 % 2 ^ 5 := by
    simpa [Msr.ENERGY_UNIT_MASK] using and_1F00_shiftRight_eight units
  have hunit : m.energy_unit env = .ok (((2 : ℚ) ^ (units / 2 ^ 8 % 2 ^ 5))⁻¹) := by
    simp [Msr.energy_unit, hu, Res.map, hmask, one_div, inv_pow]
  refine ⟨hmask, hunit, ?_, ?_⟩
  · simp [Msr.core_energy, hc, hunit, Res.map]
  · simp [Msr.package_energy, hp, hunit, Res.map]

/-- C5 witness: exponent 14 (register bits 8–12 = `0b01110`) gives scale
`2^-14` (raw `2^15` becomes 2 J); exponent 0 gives scale 1. -/
theorem energy_unit_decodes_bits_8_to_12_witness :
    (Msr.new 0).energy_unit envU14 = .ok ((16384 : ℚ)⁻¹) ∧
    (Msr.new 0).core_energy envU14 = .ok 2 ∧
    (Msr.new 0).energy_unit envB1 = .ok 1 := by
  have h14 := energy_unit_decodes_bits_8_to_12 envU14 (Msr.new 0)
    0x0E00 32768 32768 (by decide) (by decide) (by decide)
  have h0 := energy_unit_decodes_bits_8_to_12 envB1 (Msr.new 0)
    0 100 100 (by decide) (by decide) (by decide)
  refine ⟨?_, ?_, ?_⟩
  · rw [h14.2.1]; norm_num
  · rw [h14.2.2.1]; norm_num
  · rw [h0.2.1]; norm_num

/-- C8: a register file yielding fewer than 8 bytes at the requested
offset fails with the `UnexpectedEof` register-access error, and `power`
returns a result only when every per-core register read (before and after
the sleep) succeeded — any failure aborts the whole sampling with no
partial result, no retry and no defaulted value. -/
theorem register_failures_abort_sampling :
    (∀ (env : Env) (m : Msr) (offset : Nat),
        (env.readBytes m.path offset).length < 8 →
        m.read_register env offset = .err .unexpectedEof) ∧
    (∀ (c : Cpu) (envB envA : Env) (d : Duration) (v : ℚ × List (Nat × ℚ)),
        c.power envB envA d = .ok v →
        (c.package_energy envB).isOk = true ∧
        (c.package_energy envA).isOk = true ∧
        ∀ p ∈ c.core_msr,
          (Msr.core_energy envB p.2).isOk = true ∧
          (Msr.core_energy envA p.2).isOk = true) := by
  constructor
  · intro env m offset h
    simp [Msr.read_register, h]
  · intro c envB envA d v h
    simp only [Cpu.power] at h
    split at h
    · rename_i pb hpb
      split at h
      · rename_i cb hcb
        split at h
        · rename_i pa hpa
          split at h
          · rename_i ca hca
            refine ⟨by simp [hpb, Res.isOk], by simp [hpa, Res.isOk], ?_⟩
            intro p hp
            exact ⟨coreEnergyList_all_ok envB c.core_msr cb
                     (by simpa [Cpu.core_energy] using hcb) p hp,
                   coreEnergyList_all_ok envA c.core_msr ca
                     (by simpa [Cpu.core_energy] using hca) p hp⟩
          · simp at h
        · simp at h
      · simp at h
    · simp at h

/-- C8 witness: an empty register file produces the `UnexpectedEof` error,
and a successful sampling pass implies every core read succeeded. -/
theorem register_failures_abort_sampling_witness :
    (Msr.new 0).read_register envShort Msr.CORE_ENERGY_OFFSET =
      .err .unexpectedEof ∧
    (Msr.core_energy envB1 (Msr.new 0)).isOk = true := by
  constructor
  · exact register_failures_abort_sampling.1 envShort (Msr.new 0)
      Msr.CORE_ENERGY_OFFSET (by decide)
  · have h := register_failures_abort_sampling.2 cpu1 envB1 envA1
      ⟨1000000000⟩ (50, [(0, 50)])
      (by norm_num [Cpu.power, Cpu.package_energy, Cpu.core_energy,
        Cpu.coreEnergyList, cpu1, Cpu.get_msr_info, Msr.package_energy,
        Msr.core_energy, Msr.energy_unit, Msr.read_register, envB1, envA1,
        regsAt, le8, from_ne_bytes, Duration.as_secs, Msr.POWER_UNIT_OFFSET,
        Msr.CORE_ENERGY_OFFSET, Msr.PACKAGE_ENERGY_OFFSET,
        Msr.ENERGY_UNIT_MASK, Res.map, List.range_succ])
    exact (h.2.2 (0, Msr.new 0) (by decide)).1

/-- C2: contrary to the claim, `power` performs no duration validation:
with duration zero (negative durations are not representable by
`Duration` at all) it still returns a normal result when the registers
read cleanly — dividing by zero instead of rejecting with
InvalidArgument — and it still performs the register reads: with empty
register files the same zero-duration call aborts on the read failure. -/
theorem power_zero_duration_not_rejected :
    (Cpu.power cpu1 envB1 envA1 ⟨0⟩).isOk = true ∧
    Cpu.power cpu1 envShort envShort ⟨0⟩ = .panicked := by
  exact ⟨by decide, by decide⟩

/-- C6 (amended): the reported cores-total equals the per-core watt sum
times the integer quotient `core_count / physical_core_count` (a `u32`
division performed before the cast to `f64`); this agrees with the spec's
real-valued ratio exactly when the physical count divides the logical
count — as in the 8/4 example and the SMT-off ratio-1 case. -/
theorem cores_total_matches_spec_when_divisible (cc pc : Nat)
    (l : List (Nat × ℚ)) (hd : pc ∣ cc) (h0 : 0 < pc) :
    cores_total cc pc l = cores_total_spec cc pc l := by
  unfold cores_total cores_total_spec
  congr 1
  exact Nat.cast_div hd (Nat.cast_ne_zero.mpr h0.ne')

/-- C6 witness: 4 cores at 10 W with 8 logical / 4 physical cores give
80 W (code and spec formulas agree); with ratio 1 the total is 40 W. -/
theorem cores_total_matches_spec_when_divisible_witness :
    cores_total 8 4 [(0, 10), (1, 10), (2, 10), (3, 10)] = 80 ∧
    cores_total_spec 8 4 [(0, 10), (1, 10), (2, 10), (3, 10)] = 80 ∧
    cores_total 4 4 [(0, 10), (1, 10), (2, 10), (3, 10)] = 40 := by
  have h := cores_total_matches_spec_when_divisible 8 4
    [(0, 10), (1, 10), (2, 10), (3, 10)] (by norm_num) (by norm_num)
  refine ⟨by norm_num [cores_total], ?_, by norm_num [cores_total]⟩
  rw [← h]
  norm_num [cores_total]

/-- C6 counterexample: with 3 logical and 2 physical cores (a reachable
asymmetric topology) and two cores at 10 W each, the code's integer ratio
`3 / 2 = 1` reports 20 W while the claim's real-valued ratio gives 30 W. -/
theorem cores_total_integer_ratio_counterexample :
    cores_total 3 2 [(0, 10), (1, 10)] = 20 ∧
    cores_total_spec 3 2 [(0, 10), (1, 10)] = 30 ∧ (20 : ℚ) ≠ 30 := by
  refine ⟨?_, ?_, by norm_num⟩ <;> norm_num [cores_total, cores_total_spec]

/-- C7 (amended): a well-formed online descriptor whose tail after the
first `-` parses as the `u32` value `N` (with `N + 1` in `u32` range)
yields a logical core count of `N + 1`; a descriptor with no `-`, or with
a tail that does not parse as a `u32`, makes `get_cores` panic (aborting
the process) rather than return a TopologyError to the caller. -/
theorem get_cores_parses_range_or_panics (env : Env) :
    (∀ pre tail n,
        splitOnceChar '-' (trimEndList env.online) = some (pre, tail) →
        parseU32 tail = some n → n + 1 < 2 ^ 32 →
        Cpu.get_cores env = .ok (n + 1)) ∧
    (splitOnceChar '-' (trimEndList env.online) = none →
        Cpu.get_cores env = .panicked) ∧
    (∀ pre tail,
        splitOnceChar '-' (trimEndList env.online) = some (pre, tail) →
        parseU32 tail = none → Cpu.get_cores env = .panicked) := by
  refine ⟨?_, ?_, ?_⟩
  · intro pre tail n hs hp hn
    simp [Cpu.get_cores, hs, hp, hn]
    omega
  · intro hs
    simp [Cpu.get_cores, hs]
  · intro pre tail hs hp
    simp [Cpu.get_cores, hs, hp]

/-- C7 witness: descriptor `0-4` yields 5 logical cores; the malformed
descriptor `03` panics. -/
theorem get_cores_parses_range_or_panics_witness :
    Cpu.get_cores envOff = .ok 5 ∧ Cpu.get_cores envNoDash = .panicked := by
  constructor
  · exact (get_cores_parses_range_or_panics envOff).1 "0".data "4".data 4
      (by decide) (by decide) (by decide)
  · exact (get_cores_parses_range_or_panics envNoDash).2.1 (by decide)

/-- C7 counterexample: on the separator-less descriptor `03` the code
panics in `split_once(...).unwrap()`; no error value of any kind is
returned to the caller. -/
theorem get_cores_malformed_panics_not_errs :
    Cpu.get_cores envNoDash = .panicked ∧
    ¬ ∃ e, Cpu.get_cores envNoDash = Res.err e := by
  have h : Cpu.get_cores envNoDash = .panicked := by decide
  refine ⟨h, ?_⟩
  rintro ⟨e, he⟩
  rw [h] at he
  exact Res.noConfusion he

/-- C1 (amended): when every sample succeeds, `power` returns the package
watt value `(after - before) / s` and the per-core watt values
`(after_i - before_i) / s`, pairing before/after samples positionally —
which is pairing by physical-core index, both sample lists carrying the
same ordered key sequence — where `s` is `duration.as_secs() as f64`: the
duration truncated to whole seconds, equal to the claim's real-valued
`duration_seconds` only when the duration is a whole number of seconds. -/
theorem power_divides_by_whole_seconds (c : Cpu) (envB envA : Env)
    (d : Duration) (pb pa : ℚ) (cb ca : List (Nat × ℚ))
    (hpb : c.package_energy envB = .ok pb)
    (hcb : c.core_energy envB = .ok cb)
    (hpa : c.package_energy envA = .ok pa)
    (hca : c.core_energy envA = .ok ca) :
    c.power envB envA d =
      .ok ((pa - pb) / (d.as_secs : ℚ),
           (cb.zip ca).map
             (fun p => (p.1.1, (p.2.2 - p.1.2) / (d.as_secs : ℚ)))) ∧
    ca.map Prod.fst = cb.map Prod.fst ∧
    ∀ q ∈ cb.zip ca, q.1.1 = q.2.1 := by
  have hkb := coreEnergyList_keys envB c.core_msr cb
    (by simpa [Cpu.core_energy] using hcb)
  have hka := coreEnergyList_keys envA c.core_msr ca
    (by simpa [Cpu.core_energy] using hca)
  have hkeys : ca.map Prod.fst = cb.map Prod.fst := by rw [hka, hkb]
  refine ⟨?_, hkeys, zip_fst_aligned cb ca hkeys.symm⟩
  simp [Cpu.power, hpb, hcb, hpa, hca]

/-- C1 witness: the spec's examples — 100 J to 150 J over 1 s gives
exactly 50 W, over 2 s gives 25 W, package and core alike. -/
theorem power_divides_by_whole_seconds_witness :
    Cpu.power cpu1 envB1 envA1 ⟨1000000000⟩ = .ok (50, [(0, 50)]) ∧
    Cpu.power cpu1 envB1 envA1 ⟨2000000000⟩ = .ok (25, [(0, 25)]) := by
  have hpb : Cpu.package_energy envB1 cpu1 = .ok 100 := by
    norm_num [Cpu.package_energy, cpu1, Cpu.get_msr_info, Msr.package_energy,
      Msr.energy_unit, Msr.read_register, envB1, regsAt, le8, from_ne_bytes,
      Msr.POWER_UNIT_OFFSET, Msr.PACKAGE_ENERGY_OFFSET, Msr.ENERGY_UNIT_MASK,
      Res.map, List.range_succ]
  have hpa : Cpu.package_energy envA1 cpu1 = .ok 150 := by
    norm_num [Cpu.package_energy, cpu1, Cpu.get_msr_info, Msr.package_energy,
      Msr.energy_unit, Msr.read_register, envA1, regsAt, le8, from_ne_bytes,
      Msr.POWER_UNIT_OFFSET, Msr.PACKAGE_ENERGY_OFFSET, Msr.ENERGY_UNIT_MASK,
      Res.map, List.range_succ]
  have hcb : Cpu.core_energy envB1 cpu1 = .ok [(0, 100)] := by
    norm_num [Cpu.core_energy, Cpu.coreEnergyList, cpu1, Cpu.get_msr_info,
      Msr.core_energy, Msr.energy_unit, Msr.read_register, envB1, regsAt, le8,
      from_ne_bytes, Msr.POWER_UNIT_OFFSET, Msr.CORE_ENERGY_OFFSET,
      Msr.ENERGY_UNIT_MASK, Res.map, List.range_succ]
  have hca : Cpu.core_energy envA1 cpu1 = .ok [(0, 150)] := by
    norm_num [Cpu.core_energy, Cpu.coreEnergyList, cpu1, Cpu.get_msr_info,
      Msr.core_energy, Msr.energy_unit, Msr.read_register, envA1, regsAt, le8,
      from_ne_bytes, Msr.POWER_UNIT_OFFSET, Msr.CORE_ENERGY_OFFSET,
      Msr.ENERGY_UNIT_MASK, Res.map, List.range_succ]
  constructor
  · rw [(power_divides_by_whole_seconds cpu1 envB1 envA1 ⟨1000000000⟩
      100 150 [(0, 100)] [(0, 150)] hpb hcb hpa hca).1]
    norm_num [Duration.as_secs]
  · rw [(power_divides_by_whole_seconds cpu1 envB1 envA1 ⟨2000000000⟩
      100 150 [(0, 100)] [(0, 150)] hpb hcb hpa hca).1]
    norm_num [Duration.as_secs]

/-- C1 counterexample: sampling 100 J to 150 J over a duration of 1.5 s —
the code divides by the truncated `as_secs = 1` and reports 50 W, but the
claim's real-valued `duration_seconds = 3/2` would give 100/3 W. -/
theorem power_real_seconds_counterexample :
    Cpu.power cpu1 envB1 envA1 ⟨1500000000⟩ = .ok (50, [(0, 50)]) ∧
    ((150 : ℚ) - 100) / durationSecondsSpec ⟨1500000000⟩ = 100 / 3 ∧
    (50 : ℚ) ≠ 100 / 3 := by
  refine ⟨?_, ?_, by norm_num⟩
  · norm_num [Cpu.power, Cpu.package_energy, Cpu.core_energy,
      Cpu.coreEnergyList, cpu1, Cpu.get_msr_info, Msr.package_energy,
      Msr.core_energy, Msr.energy_unit, Msr.read_register, envB1, envA1,
      regsAt, le8, from_ne_bytes, Duration.as_secs, Msr.POWER_UNIT_OFFSET,
      Msr.CORE_ENERGY_OFFSET, Msr.PACKAGE_ENERGY_OFFSET, Msr.ENERGY_UNIT_MASK,
      Res.map, List.range_succ]
  · norm_num [durationSecondsSpec]

end Ryzen
